import Mathlib

/-!
Verification of the frame sampling and export pipeline of the
`video_frame_extractor` repository.

The shallow embedding below translates the relevant source functions into
Lean definitions:

* `generateFilename`, `padStart` — `src/utils.ts` (`generateFilename`),
  where `String(n).padStart(len, '0')` becomes `padStart`;
* `processFrame`, `downloadZip`, `handleDownloadAll` — `src/utils.ts`
  (`processFrame`, `downloadZip`) and `src/App.tsx` (`handleDownloadAll`),
  with host capabilities (image decoding, 2d context availability, blob
  encoding) abstracted into an `ExportEnv`; a JavaScript promise that can
  fail to ever settle (the missing `img.onerror` handler) is modelled by
  `PromiseOut.pending`;
* `captureLoop`, `startAutoCapture` — `src/App.tsx` (`startAutoCapture`),
  with the decoder abstracted into a `Decoder` (seek snapping, the raster
  signature produced by `canvas.toDataURL('image/jpeg', 0.90)` at a given
  requested time, and the possible outcomes of one iteration);
* `finishFps`, `detectVideoFPSFinalState` — `src/App.tsx`
  (`detectVideoFPS`): the pure `finish` computation on the collected
  deltas, and the effect of each exit path on the video element's
  (currentTime, muted, paused) state.

Times, quality and scale factors are modelled with exact rationals.
JavaScript `Array.prototype.sort` with a numeric comparator is modelled by
the stable `List.insertionSort`; `Math.round` by `jsRound`.
-/

/-- `CapturedFrame` from `src/types.ts`: the random UUID `id` plays no role
in any verified property and is omitted from the model. -/
structure CapturedFrame where
  timestamp : ℚ
  originalDataUrl : String
  width : ℕ
  height : ℕ
deriving DecidableEq

/-- `sortOrder` field values of `ExportSettings` (`src/types.ts`). -/
inductive SortOrder where
  | asc
  | desc
deriving DecidableEq

/-- `ExportSettings` from `src/types.ts`.  The `prefix` field of the source
is called `filenamePrefix` here (the source spelling is a Lean keyword);
the MIME `format` union type is modelled as the underlying string. -/
structure ExportSettings where
  format : String
  quality : ℚ
  scale : ℚ
  filenamePrefix : String
  sortOrder : SortOrder
deriving DecidableEq

/-- JavaScript `s.padStart(len, c)`: prepend copies of `c` until the length
is at least `len` (a no-op when `s` is already long enough). -/
def padStart (s : String) (len : ℕ) (c : Char) : String :=
  String.mk (List.replicate (len - s.length) c) ++ s

/-- `generateFilename` from `src/utils.ts`:
`ext = settings.format.split('/')[1]`,
`padLength = Math.max(2, String(index + 1).length)`,
`numStr = String(index + 1).padStart(padLength, '0')`,
returning `` `${settings.prefix}_${numStr}.${ext}` ``. -/
def generateFilename (timestamp : ℚ) (settings : ExportSettings) (index : ℕ) : String :=
  let ext := String.mk ((settings.format.data.splitOn '/').getD 1 [])
  let padLength := max 2 (toString (index + 1)).length
  let numStr := padStart (toString (index + 1)) padLength '0'
  settings.filenamePrefix ++ "_" ++ numStr ++ "." ++ ext

/-- Number of digits of the decimal representation, as the spec's
`digitCount`. -/
def digitCount (n : ℕ) : ℕ :=
  (toString n).length

/-- Modelled from the spec (§4.4 filename rule), for comparison with the
source's `generateFilename`: the numeric field is the 1-based `ordinal`
zero-padded to `max(2, digitCount(totalFrameCount))` digits. -/
def specFilename (pre : String) (totalFrames : ℕ) (ordinal : ℕ) (ext : String) : String :=
  pre ++ "_" ++ padStart (toString ordinal) (max 2 (digitCount totalFrames)) '0' ++ "." ++ ext

/-- A concrete settings value used for counterexamples. -/
def exSettings : ExportSettings :=
  { format := "image/jpeg"
    quality := 9 / 10
    scale := 1
    filenamePrefix := "image"
    sortOrder := SortOrder.asc }

/-- Outcome of one seek-render-encode iteration of the capture loop in
`startAutoCapture` (`src/App.tsx`): `ok sig` — the 2d context was obtained
and `toDataURL('image/jpeg', 0.90)` yielded the signature `sig`; `noCtx` —
`canvas.getContext('2d')` returned null, so the iteration captures nothing;
`err` — the seek or the render threw (the unrecoverable-error case). -/
inductive StepRes where
  | ok (sig : String)
  | noCtx
  | err
deriving DecidableEq

/-- The video decoder as the capture loop sees it: `step t` is the outcome
of seeking to the requested time `t` and encoding the decoded raster at the
fixed comparison quality 0.90; `snap t` is `video.currentTime` right after
the seek to `t` completes (seeking snaps to the nearest available frame);
`width`/`height` are `video.videoWidth`/`video.videoHeight`. -/
structure Decoder where
  step : ℚ → StepRes
  snap : ℚ → ℚ
  width : ℕ
  height : ℕ

/-- The `CapturedFrame` pushed by an accepted iteration at requested time
`t` (`src/App.tsx` lines 251-257): `timestamp` is `video.currentTime`
after the seek and `originalDataUrl` the freshly encoded signature. -/
def frameAt (d : Decoder) (t : ℚ) : CapturedFrame :=
  { timestamp := d.snap t
    originalDataUrl :=
      match d.step t with
      | StepRes.ok sig => sig
      | _ => ""
    width := d.width
    height := d.height }

/-- Result of the capture loop: the requested times whose iterations ran
(`visited`, in order), the accepted frames (`newFrames`, in capture order)
and whether the loop was aborted by a thrown error. -/
structure LoopOut where
  visited : List ℚ
  frames : List CapturedFrame
  errored : Bool
deriving DecidableEq

/-- Structural reference loop over an explicit list of requested sample
times; `captureLoop` (the faithful `while` loop) is proved equal to it on
the arithmetic progression of sample points.  `stop k` is the value of the
shared cancellation flag `autoCaptureRef.current.stop` read at the top of
iteration `k`. -/
def linearLoop (d : Decoder) (stop : ℕ → Bool) :
    List ℚ → ℕ → String → List CapturedFrame → List ℚ → LoopOut
  | [], _, _, acc, vis => ⟨vis, acc, false⟩
  | t :: ts, k, lastSig, acc, vis =>
    if stop k then ⟨vis, acc, false⟩
    else
      match d.step t with
      | StepRes.err => ⟨vis ++ [t], acc, true⟩
      | StepRes.noCtx => linearLoop d stop ts (k + 1) lastSig acc (vis ++ [t])
      | StepRes.ok sig =>
        if sig ≠ lastSig then
          linearLoop d stop ts (k + 1) sig (acc ++ [frameAt d t]) (vis ++ [t])
        else
          linearLoop d stop ts (k + 1) lastSig acc (vis ++ [t])

/-- Number of sample points the `while (currentTimeLoop <= end)` loop still
has ahead of it when the loop variable is `t`: zero when `t > end`, else
`⌊(end - t) / interval⌋ + 1`. -/
def nPoints (e interval t : ℚ) : ℕ :=
  (Int.floor ((e - t) / interval) + 1).toNat

/-- The arithmetic progression of requested sample times starting at `t`:
`t, t + interval, …` while `≤ e`. -/
def pointsList (e interval t : ℚ) : List ℚ :=
  (List.range (nPoints e interval t)).map (fun j : ℕ => t + (j : ℚ) * interval)

/-- The capture loop of `startAutoCapture` (`src/App.tsx` lines 237-268),
translated statement by statement: while the requested time is `≤ end`,
check the cancellation flag (break), seek and capture (`d.step`), accept
the frame exactly when the fresh signature differs from `lastDataUrl`,
then advance by `interval`.  A thrown error aborts the loop with
`errored = true`. -/
def captureLoop (d : Decoder) (stop : ℕ → Bool) (e interval : ℚ)
    (hI : 0 < interval) (t : ℚ) (k : ℕ) (lastSig : String)
    (acc : List CapturedFrame) (vis : List ℚ) : LoopOut :=
  if h : t ≤ e then
    if stop k then ⟨vis, acc, false⟩
    else
      match d.step t with
      | StepRes.err => ⟨vis ++ [t], acc, true⟩
      | StepRes.noCtx =>
        captureLoop d stop e interval hI (t + interval) (k + 1) lastSig acc (vis ++ [t])
      | StepRes.ok sig =>
        if sig ≠ lastSig then
          captureLoop d stop e interval hI (t + interval) (k + 1) sig
            (acc ++ [frameAt d t]) (vis ++ [t])
        else
          captureLoop d stop e interval hI (t + interval) (k + 1) lastSig acc (vis ++ [t])
  else ⟨vis, acc, false⟩
termination_by nPoints e interval t
decreasing_by
  all_goals
    (unfold nPoints
     have hi0 : interval ≠ 0 := ne_of_gt hI
     have hq : (e - (t + interval)) / interval = (e - t) / interval - 1 := by
       field_simp
       ring
     have hq0 : 0 ≤ (e - t) / interval := div_nonneg (by linarith) (le_of_lt hI)
     have hf0 : 0 ≤ Int.floor ((e - t) / interval) := Int.floor_nonneg.mpr hq0
     have hfl : Int.floor ((e - t) / interval - 1) = Int.floor ((e - t) / interval) - 1 := by
       rw [← Int.floor_sub_int ((e - t) / interval) 1]
       norm_num
     rw [hq, hfl]
     omega)

/-- Observable outcome of one `startAutoCapture` run: the frame store
content after the run, the final decoder position, the `isAutoCapturing`
flag, and whether an exception escaped to the caller. -/
structure RunResult where
  store : List CapturedFrame
  finalPos : ℚ
  capturing : Bool
  raised : Bool
deriving DecidableEq

/-- `startAutoCapture` (`src/App.tsx` lines 208-279) around the loop:
`try { loop; setFrames(prev => [...newFrames.reverse(), ...prev]) }
catch (e) { console.error(...) } finally { setIsAutoCapturing(false);
video.currentTime = start }` — on an error the merge is skipped (the
`setFrames` call sits after the loop inside the `try`), the `catch`
swallows the exception, and the `finally` always restores the position and
clears the running flag. -/
def startAutoCapture (d : Decoder) (stop : ℕ → Bool) (start e interval : ℚ)
    (hI : 0 < interval) (prior : List CapturedFrame) : RunResult :=
  let out := captureLoop d stop e interval hI start 0 "" [] []
  { store := if out.errored then prior else out.frames.reverse ++ prior
    finalPos := start
    capturing := false
    raised := false }

/-- JavaScript `Math.round` on an exact rational: round half away from
zero coincides with `⌊q + 1/2⌋` for the nonnegative arguments that occur
here, and `Math.round` rounds half up in general. -/
def jsRound (q : ℚ) : ℤ :=
  Int.floor (q + 1 / 2)

/-- The median delta selected by `finish` in `detectVideoFPS`
(`src/App.tsx` lines 175-176): sort ascending, take the element at index
`Math.floor(deltas.length / 2)`. -/
def medianDelta (deltas : List ℚ) : ℚ :=
  (deltas.insertionSort (· ≤ ·)).getD (deltas.length / 2) 0

/-- The `finish` computation of `detectVideoFPS` (`src/App.tsx` lines
163-179) on the collected deltas: empty → 30; otherwise
`fps = medianDelta > 0 ? Math.round(1 / medianDelta) : 30`. -/
def finishFps (deltas : List ℚ) : ℤ :=
  if deltas.isEmpty then 30
  else if 0 < medianDelta deltas then jsRound (1 / medianDelta deltas) else 30

/-- The video element state touched by `detectVideoFPS`. -/
structure VideoState where
  currentTime : ℚ
  muted : Bool
  paused : Bool
deriving DecidableEq

/-- The ways `detectVideoFPS` (`src/App.tsx` lines 125-196) can resolve:
no `requestVideoFrameCallback` support (immediate fallback), all 20
samples collected (`finish` from the callback), the 1.5 s deadline firing
first (`finish` from the `setTimeout`), or `video.play()` rejecting. -/
inductive FpsExit where
  | noSupport
  | fullCollection
  | earlyDeadline
  | autoplayRejected
deriving DecidableEq

/-- The restore sequence of `finish` (`src/App.tsx` lines 164-167):
`video.pause(); video.currentTime = originalTime;
video.muted = originalMuted; if (wasPlaying) video.play();`. -/
def finishRestore (wasPlaying : Bool) (originalTime : ℚ) (originalMuted : Bool)
    (s : VideoState) : VideoState :=
  let s1 := { s with paused := true }
  let s2 := { s1 with currentTime := originalTime }
  let s3 := { s2 with muted := originalMuted }
  if wasPlaying then { s3 with paused := false } else s3

/-- The video element state when `detectVideoFPS` resolves, per exit path:
no support returns before touching the element; otherwise the element is
muted and seeked to 0 (`src/App.tsx` lines 136-137) and playback starts,
after which the full-collection and deadline paths run `finish` (which
restores) while the autoplay-rejection handler resolves 30 without any
restore (`src/App.tsx` lines 183-187). -/
def detectVideoFPSFinalState (path : FpsExit) (v : VideoState) : VideoState :=
  match path with
  | FpsExit.noSupport => v
  | path =>
    let wasPlaying := !v.paused
    let originalTime := v.currentTime
    let originalMuted := v.muted
    let s := { v with muted := true, currentTime := 0 }
    match path with
    | FpsExit.autoplayRejected => s
    | _ => finishRestore wasPlaying originalTime originalMuted { s with paused := false }

/-- Encoded image produced by `canvas.toBlob`, abstract byte content. -/
abbrev Blob : Type := String

/-- A JavaScript promise as observed by an awaiting caller: it either
settles with a value or stays pending forever. -/
inductive PromiseOut (α : Type) where
  | pending
  | settled (val : α)
deriving DecidableEq

/-- Host capabilities used by the export pipeline: `imgLoads url` — does
an `<img>` with that `src` fire `load` (false means only `error` fires);
`ctxOk` — does `canvas.getContext('2d')` return a context; `encode url
format quality w h` — the `canvas.toBlob` result (`none` models the null
blob) for the raster decoded from `url` drawn at `w × h`. -/
structure ExportEnv where
  imgLoads : String → Bool
  ctxOk : Bool
  encode : String → String → ℚ → ℕ → ℕ → Option Blob

/-- `processFrame` from `src/utils.ts` (lines 27-62): the promise resolves
only from `img.onload` — no `onerror` handler is installed, so a data URL
that fails to decode leaves the promise pending forever; with a loaded
image, a null 2d context resolves `null`, otherwise the frame is drawn at
`max(1, floor(width * scale)) × max(1, floor(height * scale))` and
`canvas.toBlob`'s result (possibly null) is resolved. -/
def processFrame (env : ExportEnv) (frame : CapturedFrame) (settings : ExportSettings) :
    PromiseOut (Option Blob) :=
  if !env.imgLoads frame.originalDataUrl then PromiseOut.pending
  else if !env.ctxOk then PromiseOut.settled none
  else
    let targetWidth := max 1 (Int.floor ((frame.width : ℚ) * settings.scale)).toNat
    let targetHeight := max 1 (Int.floor ((frame.height : ℚ) * settings.scale)).toNat
    PromiseOut.settled
      (env.encode frame.originalDataUrl settings.format settings.quality targetWidth targetHeight)

/-- The comparator passed to `sort` in `downloadZip`: ascending or
descending by timestamp according to `settings.sortOrder`. -/
def sortLE (settings : ExportSettings) (a b : CapturedFrame) : Prop :=
  match settings.sortOrder with
  | SortOrder.asc => a.timestamp ≤ b.timestamp
  | SortOrder.desc => b.timestamp ≤ a.timestamp

instance (settings : ExportSettings) : DecidableRel (sortLE settings) := by
  intro a b
  unfold sortLE
  cases settings.sortOrder <;> exact inferInstance

/-- `downloadZip` from `src/utils.ts` (lines 64-96): sort a copy of the
frames by the settings' order, process every frame concurrently, add a
named entry for each frame whose blob is non-null, then generate and
deliver the archive `{prefix}_frames.zip`.  `Promise.all` settles only if
every per-frame promise settles; the archive is generated whatever the
number of entries, including zero. -/
def downloadZip (env : ExportEnv) (frames : List CapturedFrame)
    (settings : ExportSettings) : PromiseOut (List (String × Blob) × String) :=
  let sortedFrames := frames.insertionSort (sortLE settings)
  let results := sortedFrames.enum.map
    (fun p => (p.1, p.2, processFrame env p.2 settings))
  if results.any (fun r => decide (r.2.2 = PromiseOut.pending)) then PromiseOut.pending
  else
    PromiseOut.settled
      (results.filterMap
        (fun r =>
          match r.2.2 with
          | PromiseOut.settled (some blob) =>
            some (generateFilename r.2.1.timestamp settings r.1, blob)
          | _ => none),
       settings.filenamePrefix ++ "_frames.zip")

/-- What an export request ends up doing, as observed by the user. -/
inductive ExportOutcome where
  | noop
  | stalled
  | delivered (entries : List (String × Blob)) (zipName : String)
deriving DecidableEq

/-- `handleDownloadAll` from `src/App.tsx` (lines 281-292): an empty frame
store returns immediately (no archive, no error); otherwise it awaits
`downloadZip` — if that never settles the handler stalls (and
`isProcessing` never clears), else the archive is delivered. -/
def handleDownloadAll (env : ExportEnv) (frames : List CapturedFrame)
    (settings : ExportSettings) : ExportOutcome :=
  if frames.isEmpty then ExportOutcome.noop
  else
    match downloadZip env frames settings with
    | PromiseOut.pending => ExportOutcome.stalled
    | PromiseOut.settled z => ExportOutcome.delivered z.1 z.2

/-- Concrete decoder for the C1 counterexample: two distinct rasters over
the two sample points, identity seek snapping. -/
def exD1 : Decoder :=
  { step := fun t => StepRes.ok (if t < 1 then "a" else "b")
    snap := id
    width := 1
    height := 1 }

/-- Concrete decoder for the C5 counterexample: the first iteration
captures raster "a", the second throws. -/
def exD5 : Decoder :=
  { step := fun t => if t < 1 then StepRes.ok "a" else StepRes.err
    snap := id
    width := 1
    height := 1 }

/-- Concrete decoder returning the same raster at every step (C2). -/
def exDconst : Decoder :=
  { step := fun _ => StepRes.ok "a"
    snap := id
    width := 1
    height := 1 }

/-- A cancellation flag that is never set. -/
def neverStop : ℕ → Bool := fun _ => false

/-- Export environment for the C6 code-bug evaluation: the data URL
`"bad"` fails to decode (its promise never settles), everything else
decodes and encodes fine. -/
def exEnv6 : ExportEnv :=
  { imgLoads := fun url => url ≠ "bad"
    ctxOk := true
    encode := fun url _ _ _ _ => some ("enc:" ++ url) }

/-- Export environment for the C7 counterexample: every frame decodes but
every encode yields a null blob, so zero frames transform successfully. -/
def exEnv7 : ExportEnv :=
  { imgLoads := fun _ => true
    ctxOk := true
    encode := fun _ _ _ _ _ => none }

/-- Concrete frames for the export counterexamples. -/
def exFrameGood : CapturedFrame :=
  { timestamp := 0, originalDataUrl := "g", width := 2, height := 2 }

/-- A frame whose data URL fails to decode in `exEnv6`. -/
def exFrameBad : CapturedFrame :=
  { timestamp := 1, originalDataUrl := "bad", width := 2, height := 2 }

/-- The padded numeric field has exactly `max len s.length` characters. -/
theorem padStart_length (s : String) (len : ℕ) (c : Char) :
    (padStart s len c).length = max len s.length := by
  have hmk : (String.mk (List.replicate (len - s.length) c)).length
      = len - s.length := by
    show (List.replicate (len - s.length) c).length = len - s.length
    exact List.length_replicate _ _
  rw [padStart, String.length_append, hmk]
  omega

/-- C4 (counterexample): the claim demands the numeric field be padded to
`max(2, digitCount(N))` digits, so with a total of `N = 150` frames the
ordinal-1 file would carry a 3-digit field (`image_001`); the source pads
by the ordinal's own digit count and produces the 2-digit `image_01`. -/
theorem c4_counterexample :
    generateFilename 0 exSettings 0 = "image_01.jpeg"
      ∧ specFilename "image" 150 1 "jpeg" = "image_001.jpeg"
      ∧ generateFilename 0 exSettings 0 ≠ specFilename "image" 150 1 "jpeg" := by
  refine ⟨by decide, by decide, by decide⟩

/-- C4 (amended): `generateFilename` never sees the total frame count; it
zero-pads the 1-based ordinal `index + 1` to exactly
`max(2, digitCount(index + 1))` digits — the padding grows with the
individual ordinal, not with the total count — and returns
`{prefix}_{paddedOrdinal}.{ext}` with the extension taken from the MIME
subtype of `settings.format`. -/
theorem c4_filename_pads_by_ordinal (ts : ℚ) (s : ExportSettings) (i : ℕ) :
    generateFilename ts s i
      = s.filenamePrefix ++ "_"
          ++ padStart (toString (i + 1)) (max 2 (digitCount (i + 1))) '0'
          ++ "." ++ String.mk ((s.format.data.splitOn '/').getD 1 [])
    ∧ (padStart (toString (i + 1)) (max 2 (digitCount (i + 1))) '0').length
        = max 2 (digitCount (i + 1)) := by
  constructor
  · rfl
  · rw [padStart_length]
    unfold digitCount
    omega

/-- C10: the filename is independent of the timestamp argument — any two
timestamps yield the identical filename for the same settings and index. -/
theorem c10_filename_ignores_timestamp (t1 t2 : ℚ) (s : ExportSettings) (i : ℕ) :
    generateFilename t1 s i = generateFilename t2 s i := rfl

/-- C8 (counterexample): a single delivered delta of 3 seconds (it passes
the `> 0.001` filter) gives median 3 and `Math.round(1/3) = 0`, so the
estimator returns 0 — not a positive integer, and not 30. -/
theorem c8_counterexample : finishFps [3] = 0 := by
  have hm : medianDelta [3] = 3 := by decide
  rw [finishFps, if_neg (by decide), hm, if_pos (by norm_num), jsRound]
  rw [show (1 : ℚ) / 3 + 1 / 2 = 5 / 6 by norm_num]
  rw [Int.floor_eq_iff] <;> norm_num

/-- The median picked by `finish` is one of the deltas. -/
theorem medianDelta_mem (ds : List ℚ) (h : ds ≠ []) : medianDelta ds ∈ ds := by
  have hlen : ds.length / 2 < (ds.insertionSort (· ≤ ·)).length := by
    rw [List.length_insertionSort]
    have : 0 < ds.length := List.length_pos.mpr h
    omega
  rw [medianDelta, List.getD_eq_getElem _ _ hlen]
  exact (List.mem_insertionSort _).mp (List.getElem_mem hlen)

/-- C8 (amended): with zero deltas the estimator returns 30; with a
non-empty set of delivered deltas (all positive, as the `> 0.001` filter
guarantees) it returns exactly `Math.round(1/median)` — the
`medianDelta > 0` guard, not a check on the rounded value — which is never
negative but is 0 whenever the median exceeds 2 seconds; it is a positive
integer whenever every delta is at most 2 seconds. -/
theorem c8_fps_fallback_and_rounding :
    finishFps [] = 30
    ∧ (∀ ds : List ℚ, ds ≠ [] → (∀ x ∈ ds, 0 < x) →
        finishFps ds = jsRound (1 / medianDelta ds) ∧ 0 ≤ finishFps ds)
    ∧ (∀ ds : List ℚ, ds ≠ [] → (∀ x ∈ ds, 0 < x ∧ x ≤ 2) →
        1 ≤ finishFps ds) := by
  refine ⟨rfl, ?_, ?_⟩
  · intro ds hne hpos
    have hm : 0 < medianDelta ds := hpos _ (medianDelta_mem ds hne)
    have hval : finishFps ds = jsRound (1 / medianDelta ds) := by
      rw [finishFps, if_neg (by simp [hne]), if_pos hm]
    refine ⟨hval, ?_⟩
    rw [hval, jsRound]
    have : (0 : ℚ) ≤ 1 / medianDelta ds + 1 / 2 := by positivity
    exact Int.floor_nonneg.mpr this
  · intro ds hne hps
    have hmem := medianDelta_mem ds hne
    have hm : 0 < medianDelta ds := (hps _ hmem).1
    have hm2 : medianDelta ds ≤ 2 := (hps _ hmem).2
    rw [finishFps, if_neg (by simp [hne]), if_pos hm, jsRound]
    have hinv : (1 : ℚ) / 2 ≤ 1 / medianDelta ds := by
      rw [div_le_div_iff (by norm_num) hm]
      linarith
    have : (1 : ℚ) ≤ 1 / medianDelta ds + 1 / 2 := by linarith
    exact Int.le_floor.mpr (by exact_mod_cast this)

/-- Witness for the amended C8 at concrete inputs: the empty delta set,
and the single delivered delta `1/30` (median `1/30`). -/
theorem c8_fps_fallback_and_rounding_witness :
    finishFps [] = 30
    ∧ (finishFps [(1 : ℚ) / 30] = jsRound (1 / medianDelta [(1 : ℚ) / 30])
        ∧ 0 ≤ finishFps [(1 : ℚ) / 30])
    ∧ 1 ≤ finishFps [(1 : ℚ) / 30] :=
  ⟨c8_fps_fallback_and_rounding.1,
   c8_fps_fallback_and_rounding.2.1 [(1 : ℚ) / 30] (by simp)
     (by intro x hx; rw [List.mem_singleton] at hx; rw [hx]; norm_num),
   c8_fps_fallback_and_rounding.2.2 [(1 : ℚ) / 30] (by simp)
     (by intro x hx; rw [List.mem_singleton] at hx; rw [hx]; norm_num)⟩

/-- C9 (counterexample): a paused, unmuted video at position 5 is left
muted at position 0 when `video.play()` rejects during FPS detection —
the autoplay-rejection handler resolves 30 without restoring anything. -/
theorem c9_counterexample :
    detectVideoFPSFinalState FpsExit.autoplayRejected
        { currentTime := 5, muted := false, paused := true }
      ≠ { currentTime := 5, muted := false, paused := true } := by
  decide

/-- C9 (amended): the full-collection and early-deadline exits (and the
no-support immediate return) restore the video's original position, mute
and play state exactly; the autoplay-rejection exit does not restore — it
leaves the video muted at position 0 with the play state unchanged. -/
theorem c9_restore_per_exit_path (v : VideoState) :
    detectVideoFPSFinalState FpsExit.noSupport v = v
    ∧ detectVideoFPSFinalState FpsExit.fullCollection v = v
    ∧ detectVideoFPSFinalState FpsExit.earlyDeadline v = v
    ∧ detectVideoFPSFinalState FpsExit.autoplayRejected v
        = { currentTime := 0, muted := true, paused := v.paused } := by
  obtain ⟨ct, m, p⟩ := v
  refine ⟨rfl, ?_, ?_, rfl⟩ <;>
    cases p <;> simp [detectVideoFPSFinalState, finishRestore]

/-- Accumulator decomposition for the reference loop: the accumulated
`visited` and `frames` lists are prefixes of the final ones, and the error
flag is accumulator-independent. -/
theorem linearLoop_acc (d : Decoder) (stop : ℕ → Bool) :
    ∀ (pts : List ℚ) (k : ℕ) (sig : String) (acc : List CapturedFrame) (vis : List ℚ),
    linearLoop d stop pts k sig acc vis =
      ⟨vis ++ (linearLoop d stop pts k sig [] []).visited,
       acc ++ (linearLoop d stop pts k sig [] []).frames,
       (linearLoop d stop pts k sig [] []).errored⟩ := by
  intro pts
  induction pts with
  | nil =>
    intro k sig acc vis
    simp [linearLoop]
  | cons t ts ih =>
    intro k sig acc vis
    by_cases hstop : stop k
    · simp [linearLoop, hstop]
    · cases hs : d.step t with
      | err => simp [linearLoop, hstop, hs]
      | noCtx =>
        simp only [linearLoop, hstop, hs, if_false, Bool.false_eq_true, List.nil_append]
        rw [ih (k + 1) sig acc (vis ++ [t]), ih (k + 1) sig [] [t]]
        simp
      | ok s =>
        by_cases hsig : s ≠ sig
        · simp only [linearLoop, hstop, hs, if_false, Bool.false_eq_true, if_pos hsig,
            List.nil_append]
          rw [ih (k + 1) s (acc ++ [frameAt d t]) (vis ++ [t]),
            ih (k + 1) s [frameAt d t] [t]]
          simp
        · simp only [linearLoop, hstop, hs, if_false, Bool.false_eq_true, if_neg hsig,
            List.nil_append]
          rw [ih (k + 1) sig acc (vis ++ [t]), ih (k + 1) sig [] [t]]
          simp

/-- Past the end of the range no sample point remains. -/
theorem nPoints_eq_zero (e interval t : ℚ) (hI : 0 < interval) (h : ¬t ≤ e) :
    nPoints e interval t = 0 := by
  have hneg : (e - t) / interval < 0 :=
    div_neg_of_neg_of_pos (by linarith [lt_of_not_le h]) hI
  have : Int.floor ((e - t) / interval) < 0 := Int.floor_lt.mpr (by simpa using hneg)
  unfold nPoints
  omega

/-- Within the range there is one more sample point than after one step. -/
theorem nPoints_succ (e interval t : ℚ) (hI : 0 < interval) (h : t ≤ e) :
    nPoints e interval t = nPoints e interval (t + interval) + 1 := by
  have hi0 : interval ≠ 0 := ne_of_gt hI
  have hq : (e - (t + interval)) / interval = (e - t) / interval - 1 := by
    field_simp
    ring
  have hq0 : 0 ≤ (e - t) / interval := div_nonneg (by linarith) (le_of_lt hI)
  have hf0 : 0 ≤ Int.floor ((e - t) / interval) := Int.floor_nonneg.mpr hq0
  have hfl : Int.floor ((e - t) / interval - 1) = Int.floor ((e - t) / interval) - 1 := by
    rw [← Int.floor_sub_int ((e - t) / interval) 1]
    norm_num
  unfold nPoints
  rw [hq, hfl]
  omega

/-- The sample-point progression unfolds one point at a time inside the
range. -/
theorem pointsList_cons (e interval t : ℚ) (hI : 0 < interval) (h : t ≤ e) :
    pointsList e interval t = t :: pointsList e interval (t + interval) := by
  rw [pointsList, pointsList, nPoints_succ e interval t hI h, List.range_succ_eq_map]
  simp only [List.map_cons, List.map_map, Nat.cast_zero, zero_mul, add_zero]
  congr 1
  apply List.map_congr_left
  intro j _
  simp only [Function.comp_apply]
  push_cast
  ring

/-- The faithful `while` loop visits exactly the arithmetic progression of
sample points: it agrees with the structural reference loop on
`pointsList`. -/
theorem captureLoop_eq_linearLoop (d : Decoder) (stop : ℕ → Bool) (e interval : ℚ)
    (hI : 0 < interval) :
    ∀ (t : ℚ) (k : ℕ) (sig : String) (acc : List CapturedFrame) (vis : List ℚ),
    captureLoop d stop e interval hI t k sig acc vis
      = linearLoop d stop (pointsList e interval t) k sig acc vis := by
  have main : ∀ (n : ℕ) (t : ℚ), nPoints e interval t ≤ n →
      ∀ (k : ℕ) (sig : String) (acc : List CapturedFrame) (vis : List ℚ),
      captureLoop d stop e interval hI t k sig acc vis
        = linearLoop d stop (pointsList e interval t) k sig acc vis := by
    intro n
    induction n with
    | zero =>
      intro t hn k sig acc vis
      have hne : ¬t ≤ e := by
        intro hle
        have := nPoints_succ e interval t hI hle
        omega
      have hpl : pointsList e interval t = [] := by
        rw [pointsList, nPoints_eq_zero e interval t hI hne]
        rfl
      rw [captureLoop, dif_neg hne, hpl, linearLoop]
    | succ n ih =>
      intro t hn k sig acc vis
      by_cases hle : t ≤ e
      · have hsn := nPoints_succ e interval t hI hle
        have hn' : nPoints e interval (t + interval) ≤ n := by omega
        rw [captureLoop, dif_pos hle, pointsList_cons e interval t hI hle]
        by_cases hstop : stop k
        · simp [linearLoop, hstop]
        · cases hs : d.step t with
          | err => simp [linearLoop, hstop, hs]
          | noCtx =>
            simp only [linearLoop, hstop, if_false, Bool.false_eq_true, hs]
            exact ih (t + interval) hn' (k + 1) sig acc (vis ++ [t])
          | ok s =>
            by_cases hsig : s ≠ sig
            · simp only [linearLoop, hstop, if_false, Bool.false_eq_true, hs, if_pos hsig]
              exact ih (t + interval) hn' (k + 1) s (acc ++ [frameAt d t]) (vis ++ [t])
            · simp only [linearLoop, hstop, if_false, Bool.false_eq_true, hs, if_neg hsig]
              exact ih (t + interval) hn' (k + 1) sig acc (vis ++ [t])
      · have hpl : pointsList e interval t = [] := by
          rw [pointsList, nPoints_eq_zero e interval t hI hle]
          rfl
        rw [captureLoop, dif_neg hle, hpl, linearLoop]
  intro t k sig acc vis
  exact main (nPoints e interval t) t le_rfl k sig acc vis

/-- Projection of the accumulator decomposition: frames. -/
theorem linearLoop_frames_acc (d : Decoder) (stop : ℕ → Bool) (pts : List ℚ) (k : ℕ)
    (sig : String) (acc : List CapturedFrame) (vis : List ℚ) :
    (linearLoop d stop pts k sig acc vis).frames
      = acc ++ (linearLoop d stop pts k sig [] []).frames := by
  rw [linearLoop_acc d stop pts k sig acc vis]

/-- Projection of the accumulator decomposition: visited points. -/
theorem linearLoop_visited_acc (d : Decoder) (stop : ℕ → Bool) (pts : List ℚ) (k : ℕ)
    (sig : String) (acc : List CapturedFrame) (vis : List ℚ) :
    (linearLoop d stop pts k sig acc vis).visited
      = vis ++ (linearLoop d stop pts k sig [] []).visited := by
  rw [linearLoop_acc d stop pts k sig acc vis]

/-- Projection of the accumulator decomposition: error flag. -/
theorem linearLoop_errored_acc (d : Decoder) (stop : ℕ → Bool) (pts : List ℚ) (k : ℕ)
    (sig : String) (acc : List CapturedFrame) (vis : List ℚ) :
    (linearLoop d stop pts k sig acc vis).errored
      = (linearLoop d stop pts k sig [] []).errored := by
  rw [linearLoop_acc d stop pts k sig acc vis]

/-- If no iteration throws, the loop never sets the error flag. -/
theorem linearLoop_errored_false (d : Decoder) (stop : ℕ → Bool) :
    ∀ (pts : List ℚ) (k : ℕ) (sig : String) (acc : List CapturedFrame) (vis : List ℚ),
    (∀ t ∈ pts, d.step t ≠ StepRes.err) →
    (linearLoop d stop pts k sig acc vis).errored = false := by
  intro pts
  induction pts with
  | nil =>
    intro k sig acc vis _
    rfl
  | cons t ts ih =>
    intro k sig acc vis hok
    have hokt : d.step t ≠ StepRes.err := hok t (List.mem_cons_self t ts)
    have hokts : ∀ x ∈ ts, d.step x ≠ StepRes.err :=
      fun x hx => hok x (List.mem_cons_of_mem t hx)
    by_cases hstop : stop k
    · simp [linearLoop, hstop]
    · cases hs : d.step t with
      | err => exact absurd hs hokt
      | noCtx =>
        simp only [linearLoop, hstop, if_false, Bool.false_eq_true, hs]
        exact ih (k + 1) sig acc (vis ++ [t]) hokts
      | ok s =>
        by_cases hsig : s ≠ sig
        · simp only [linearLoop, hstop, if_false, Bool.false_eq_true, hs, if_pos hsig]
          exact ih (k + 1) s (acc ++ [frameAt d t]) (vis ++ [t]) hokts
        · simp only [linearLoop, hstop, if_false, Bool.false_eq_true, hs, if_neg hsig]
          exact ih (k + 1) sig acc (vis ++ [t]) hokts

/-- The signatures of the accepted frames form a chain of inequations
anchored at the incoming `lastDataUrl` value. -/
theorem linearLoop_sig_chain (d : Decoder) (stop : ℕ → Bool) :
    ∀ (pts : List ℚ) (k : ℕ) (sig : String),
    List.Chain (fun a b => a ≠ b) sig
      (((linearLoop d stop pts k sig [] []).frames).map CapturedFrame.originalDataUrl) := by
  intro pts
  induction pts with
  | nil =>
    intro k sig
    exact List.Chain.nil
  | cons t ts ih =>
    intro k sig
    by_cases hstop : stop k
    · simp [linearLoop, hstop]
    · cases hs : d.step t with
      | err => simp [linearLoop, hstop, hs]
      | noCtx =>
        simp only [linearLoop, hstop, if_false, Bool.false_eq_true, hs, List.nil_append]
        rw [linearLoop_frames_acc d stop ts (k + 1) sig [] [t]]
        simp only [List.nil_append]
        exact ih (k + 1) sig
      | ok s =>
        by_cases hsig : s ≠ sig
        · simp only [linearLoop, hstop, if_false, Bool.false_eq_true, hs, if_pos hsig,
            List.nil_append]
          rw [linearLoop_frames_acc d stop ts (k + 1) s [frameAt d t] [t]]
          have hfr : (frameAt d t).originalDataUrl = s := by
            simp [frameAt, hs]
          simp only [List.map_append, List.map_cons, List.map_nil, List.singleton_append,
            List.nil_append, hfr]
          exact List.Chain.cons (Ne.symm hsig) (ih (k + 1) s)
        · simp only [linearLoop, hstop, if_false, Bool.false_eq_true, hs, if_neg hsig,
            List.nil_append]
          rw [linearLoop_frames_acc d stop ts (k + 1) sig [] [t]]
          simp only [List.nil_append]
          exact ih (k + 1) sig

/-- The accepted frames are the images under `frameAt` of a sublist of the
visited sample points. -/
theorem linearLoop_frames_sublist (d : Decoder) (stop : ℕ → Bool) :
    ∀ (pts : List ℚ) (k : ℕ) (sig : String),
    ∃ sel : List ℚ, sel.Sublist pts ∧
      (linearLoop d stop pts k sig [] []).frames = sel.map (frameAt d) := by
  intro pts
  induction pts with
  | nil =>
    intro k sig
    exact ⟨[], List.nil_sublist [], rfl⟩
  | cons t ts ih =>
    intro k sig
    by_cases hstop : stop k
    · refine ⟨[], List.nil_sublist _, ?_⟩
      simp [linearLoop, hstop]
    · cases hs : d.step t with
      | err =>
        refine ⟨[], List.nil_sublist _, ?_⟩
        simp [linearLoop, hstop, hs]
      | noCtx =>
        obtain ⟨sel, hsub, hfr⟩ := ih (k + 1) sig
        refine ⟨sel, hsub.cons t, ?_⟩
        simp only [linearLoop, hstop, if_false, Bool.false_eq_true, hs, List.nil_append]
        rw [linearLoop_frames_acc d stop ts (k + 1) sig [] [t], hfr]
        simp
      | ok s =>
        by_cases hsig : s ≠ sig
        · obtain ⟨sel, hsub, hfr⟩ := ih (k + 1) s
          refine ⟨t :: sel, hsub.cons₂ t, ?_⟩
          simp only [linearLoop, hstop, if_false, Bool.false_eq_true, hs, if_pos hsig,
            List.nil_append]
          rw [linearLoop_frames_acc d stop ts (k + 1) s [frameAt d t] [t], hfr]
          simp
        · obtain ⟨sel, hsub, hfr⟩ := ih (k + 1) sig
          refine ⟨sel, hsub.cons t, ?_⟩
          simp only [linearLoop, hstop, if_false, Bool.false_eq_true, hs, if_neg hsig,
            List.nil_append]
          rw [linearLoop_frames_acc d stop ts (k + 1) sig [] [t], hfr]
          simp

/-- With the cancellation flag never set and no errors, every sample point
is visited. -/
theorem linearLoop_visited_all (d : Decoder) (stop : ℕ → Bool)
    (hstop : ∀ k, stop k = false) :
    ∀ (pts : List ℚ) (k : ℕ) (sig : String),
    (∀ t ∈ pts, d.step t ≠ StepRes.err) →
    (linearLoop d stop pts k sig [] []).visited = pts := by
  intro pts
  induction pts with
  | nil =>
    intro k sig _
    rfl
  | cons t ts ih =>
    intro k sig hok
    have hokt : d.step t ≠ StepRes.err := hok t (List.mem_cons_self t ts)
    have hokts : ∀ x ∈ ts, d.step x ≠ StepRes.err :=
      fun x hx => hok x (List.mem_cons_of_mem t hx)
    cases hs : d.step t with
    | err => exact absurd hs hokt
    | noCtx =>
      simp only [linearLoop, hstop k, if_false, Bool.false_eq_true, hs, List.nil_append]
      rw [linearLoop_visited_acc d stop ts (k + 1) sig [] [t], ih (k + 1) sig hokts]
      rfl
    | ok s =>
      by_cases hsig : s ≠ sig
      · simp only [linearLoop, hstop k, if_false, Bool.false_eq_true, hs, if_pos hsig,
          List.nil_append]
        rw [linearLoop_visited_acc d stop ts (k + 1) s [frameAt d t] [t], ih (k + 1) s hokts]
        rfl
      · simp only [linearLoop, hstop k, if_false, Bool.false_eq_true, hs, if_neg hsig,
          List.nil_append]
        rw [linearLoop_visited_acc d stop ts (k + 1) sig [] [t], ih (k + 1) sig hokts]
        rfl

/-- Once the running signature equals the constant raster signature, every
further candidate is rejected. -/
theorem linearLoop_const_rejects (d : Decoder) (stop : ℕ → Bool) (c : String) :
    ∀ (pts : List ℚ) (k : ℕ),
    (∀ t ∈ pts, d.step t = StepRes.ok c) →
    (linearLoop d stop pts k c [] []).frames = [] := by
  intro pts
  induction pts with
  | nil =>
    intro k _
    rfl
  | cons t ts ih =>
    intro k hconst
    have hct : d.step t = StepRes.ok c := hconst t (List.mem_cons_self t ts)
    have hcts : ∀ x ∈ ts, d.step x = StepRes.ok c :=
      fun x hx => hconst x (List.mem_cons_of_mem t hx)
    by_cases hstop : stop k
    · simp [linearLoop, hstop]
    · simp only [linearLoop, hstop, if_false, Bool.false_eq_true, hct, ne_eq,
        not_true_eq_false, if_neg (by simp : ¬c ≠ c), List.nil_append]
      rw [linearLoop_frames_acc d stop ts (k + 1) c [] [t]]
      rw [ih (k + 1) hcts]
      rfl

/-- The requested sample times are nondecreasing (indeed increasing). -/
theorem pointsList_pairwise (e interval t : ℚ) (hI : 0 < interval) :
    List.Pairwise (· ≤ ·) (pointsList e interval t) := by
  rw [pointsList]
  refine (List.pairwise_lt_range _).map _ ?_
  intro a b hab
  have hc : (a : ℚ) ≤ (b : ℚ) := by exact_mod_cast hab.le
  have := mul_le_mul_of_nonneg_right hc (le_of_lt hI)
  linarith

/-- C3: with no cancellation and no decode error, the capture loop of
`startAutoCapture` performs exactly `⌊(end - start) / interval⌋ + 1`
seek-and-capture iterations — one per scheduled sample point — for any
`0 ≤ start ≤ end ≤ duration` and `interval > 0`. -/
theorem c3_sample_point_count (d : Decoder) (stop : ℕ → Bool)
    (duration start e interval : ℚ)
    (h0 : 0 ≤ start) (h1 : start ≤ e) (h2 : e ≤ duration) (hI : 0 < interval)
    (hstop : ∀ k, stop k = false) (hok : ∀ t, d.step t ≠ StepRes.err) :
    ((captureLoop d stop e interval hI start 0 "" [] []).visited.length : ℤ)
      = Int.floor ((e - start) / interval) + 1 := by
  rw [captureLoop_eq_linearLoop d stop e interval hI start 0 "" [] []]
  rw [linearLoop_visited_all d stop hstop (pointsList e interval start) 0 ""
    (fun t _ => hok t)]
  rw [pointsList, List.length_map, List.length_range, nPoints]
  have hq0 : 0 ≤ (e - start) / interval := div_nonneg (by linarith) (le_of_lt hI)
  have hf0 : 0 ≤ Int.floor ((e - start) / interval) := Int.floor_nonneg.mpr hq0
  omega

/-- Witness for C3: a constant-raster decoder over `[0, 1]` at interval
`1/2` with the flag never set performs `⌊2⌋ + 1 = 3` iterations. -/
theorem c3_sample_point_count_witness :
    ((captureLoop exDconst neverStop 1 (1 / 2) (by norm_num) 0 0 "" [] []).visited.length : ℤ)
      = Int.floor (((1 : ℚ) - 0) / (1 / 2)) + 1 :=
  c3_sample_point_count exDconst neverStop 2 0 1 (1 / 2) le_rfl (by norm_num) (by norm_num)
    (by norm_num) (fun _ => rfl) (fun t => by simp [exDconst])

/-- C2: (i) within any single run of the capture loop, no two adjacent
accepted frames carry the same comparison signature (the byte sequence
produced at the fixed 0.90 comparison quality); (ii) against a decoder
returning the same raster at every step (a fixed non-empty signature —
`toDataURL` never yields the empty string), an uncancelled error-free run
accepts exactly one frame, however many sample points the range and
interval yield. -/
theorem c2_adjacent_signatures_distinct :
    (∀ (d : Decoder) (stop : ℕ → Bool) (e interval start : ℚ) (hI : 0 < interval),
      List.Chain' (fun f g => f.originalDataUrl ≠ g.originalDataUrl)
        ((captureLoop d stop e interval hI start 0 "" [] []).frames))
    ∧ (∀ (d : Decoder) (stop : ℕ → Bool) (e interval start : ℚ) (hI : 0 < interval)
        (c : String), start ≤ e → (∀ t, d.step t = StepRes.ok c) → c ≠ "" →
        (∀ k, stop k = false) →
        ((captureLoop d stop e interval hI start 0 "" [] []).frames).length = 1) := by
  constructor
  · intro d stop e interval start hI
    rw [captureLoop_eq_linearLoop]
    have hch : List.Chain' (fun a b => a ≠ b)
        ("" :: ((linearLoop d stop (pointsList e interval start) 0 "" [] []).frames).map
          CapturedFrame.originalDataUrl) :=
      linearLoop_sig_chain d stop (pointsList e interval start) 0 ""
    have hch' := hch.tail
    simp only [List.tail_cons] at hch'
    rw [List.chain'_map] at hch'
    exact hch'
  · intro d stop e interval start hI c hse hc hcne hstop
    rw [captureLoop_eq_linearLoop, pointsList_cons e interval start hI hse]
    simp only [linearLoop, hstop 0, if_false, Bool.false_eq_true, hc start, ne_eq,
      if_pos hcne, List.nil_append]
    rw [linearLoop_frames_acc d stop (pointsList e interval (start + interval)) 1 c
      [frameAt d start] [start]]
    rw [linearLoop_const_rejects d stop c (pointsList e interval (start + interval)) 1
      (fun x _ => hc x)]
    rfl

/-- Witness for C2 at a concrete constant decoder over `[0, 1]`, interval
1: the adjacent-signature chain holds and exactly one frame is accepted. -/
theorem c2_adjacent_signatures_distinct_witness :
    List.Chain' (fun f g => f.originalDataUrl ≠ g.originalDataUrl)
      ((captureLoop exDconst neverStop 1 1 one_pos 0 0 "" [] []).frames)
    ∧ ((captureLoop exDconst neverStop 1 1 one_pos 0 0 "" [] []).frames).length = 1 :=
  ⟨c2_adjacent_signatures_distinct.1 exDconst neverStop 1 1 0 one_pos,
   c2_adjacent_signatures_distinct.2 exDconst neverStop 1 1 0 one_pos "a" (by norm_num)
     (fun _ => rfl) (by decide) (fun _ => rfl)⟩

/-- The sample points of the unit range `[0, 1]` at interval 1. -/
theorem pointsList_unit : pointsList 1 1 0 = [0, 1] := by
  have h1 : ((1 : ℚ) - 0) / 1 = 1 := by norm_num
  have hn : nPoints 1 1 0 = 2 := by
    rw [nPoints, h1, Int.floor_one]
    rfl
  rw [pointsList, hn]
  norm_num [List.range_succ]

/-- C1 (counterexample): over the range `[0, 1]` at interval 1, a decoder
producing distinct rasters at the two sample points yields the store
`[frame(t=1), frame(t=0)]` — the merged block is ordered by decreasing
timestamp, not increasing as the claim states. -/
theorem c1_counterexample :
    ((startAutoCapture exD1 neverStop 0 1 1 one_pos []).store).map CapturedFrame.timestamp
      = [(1 : ℚ), 0]
    ∧ ¬List.Chain' (fun a b => a.timestamp ≤ b.timestamp)
        ((startAutoCapture exD1 neverStop 0 1 1 one_pos []).store) := by
  have hrun : startAutoCapture exD1 neverStop 0 1 1 one_pos []
      = { store := [{ timestamp := 1, originalDataUrl := "b", width := 1, height := 1 },
                    { timestamp := 0, originalDataUrl := "a", width := 1, height := 1 }],
          finalPos := 0, capturing := false, raised := false } := by
    simp only [startAutoCapture]
    rw [captureLoop_eq_linearLoop, pointsList_unit]
    decide
  constructor
  · rw [hrun]
    rfl
  · rw [hrun]
    intro hch
    rw [List.chain'_cons] at hch
    have h10 : (1 : ℚ) ≤ 0 := hch.1
    norm_num at h10

/-- C1 (amended): for every run — cancelled or not — of an error-free
decoder with monotone seek snapping, the whole batch is merged as a single
block prepended ahead of all prior content, but in reversed capture order:
the block is internally ordered by decreasing (non-increasing) timestamp. -/
theorem c1_batch_reverse_prepended (d : Decoder) (stop : ℕ → Bool)
    (start e interval : ℚ) (hI : 0 < interval) (prior : List CapturedFrame)
    (hok : ∀ t, d.step t ≠ StepRes.err) (hmono : Monotone d.snap) :
    (startAutoCapture d stop start e interval hI prior).store
      = ((captureLoop d stop e interval hI start 0 "" [] []).frames).reverse ++ prior
    ∧ List.Chain' (fun a b => b.timestamp ≤ a.timestamp)
        (((captureLoop d stop e interval hI start 0 "" [] []).frames).reverse) := by
  have herr : (captureLoop d stop e interval hI start 0 "" [] []).errored = false := by
    rw [captureLoop_eq_linearLoop]
    exact linearLoop_errored_false d stop (pointsList e interval start) 0 "" [] []
      (fun t _ => hok t)
  constructor
  · simp only [startAutoCapture, herr]
    rfl
  · rw [captureLoop_eq_linearLoop]
    obtain ⟨sel, hsub, hfr⟩ :=
      linearLoop_frames_sublist d stop (pointsList e interval start) 0 ""
    rw [hfr, List.chain'_reverse]
    have hpw : List.Pairwise (· ≤ ·) sel :=
      List.Pairwise.sublist hsub (pointsList_pairwise e interval start hI)
    have hmap : List.Pairwise (fun a b => a.timestamp ≤ b.timestamp) (sel.map (frameAt d)) :=
      hpw.map (frameAt d) (fun a b hab => by simpa [frameAt] using hmono hab)
    exact hmap.chain'

/-- Witness for the amended C1: the two-raster decoder over `[0, 1]`. -/
theorem c1_batch_reverse_prepended_witness :
    (startAutoCapture exD1 neverStop 0 1 1 one_pos []).store
      = ((captureLoop exD1 neverStop 1 1 one_pos 0 0 "" [] []).frames).reverse ++ []
    ∧ List.Chain' (fun a b => b.timestamp ≤ a.timestamp)
        (((captureLoop exD1 neverStop 1 1 one_pos 0 0 "" [] []).frames).reverse) :=
  c1_batch_reverse_prepended exD1 neverStop 0 1 1 one_pos []
    (fun t => by simp [exD1]) (fun a b hab => hab)

/-- C5 (counterexample): a decoder that captures raster "a" at `t = 0` and
throws at `t = 1` aborts the run with one accepted frame, yet the store
stays empty — the partial batch is discarded, not merged — and no error
reaches the caller (`raised = false`). -/
theorem c5_counterexample :
    (captureLoop exD5 neverStop 1 1 one_pos 0 0 "" [] []).frames
      = [{ timestamp := 0, originalDataUrl := "a", width := 1, height := 1 }]
    ∧ (captureLoop exD5 neverStop 1 1 one_pos 0 0 "" [] []).errored = true
    ∧ (startAutoCapture exD5 neverStop 0 1 1 one_pos []).store = []
    ∧ (startAutoCapture exD5 neverStop 0 1 1 one_pos []).raised = false := by
  have hloop : captureLoop exD5 neverStop 1 1 one_pos 0 0 "" [] []
      = { visited := [0, 1],
          frames := [{ timestamp := 0, originalDataUrl := "a", width := 1, height := 1 }],
          errored := true } := by
    rw [captureLoop_eq_linearLoop, pointsList_unit]
    decide
  have hrun : startAutoCapture exD5 neverStop 0 1 1 one_pos []
      = { store := [], finalPos := 0, capturing := false, raised := false } := by
    simp only [startAutoCapture, hloop]
    rfl
  exact ⟨by rw [hloop], by rw [hloop], by rw [hrun], by rw [hrun]⟩

/-- C5 (amended): when an unrecoverable error aborts the capture loop, the
run still restores the decoder position to `start` and clears the running
state, but the frames accepted before the fault are discarded — the store
keeps only its prior content — and the error is swallowed by the `catch`
(only logged), never reported to the caller. -/
theorem c5_error_skips_merge (d : Decoder) (stop : ℕ → Bool) (start e interval : ℚ)
    (hI : 0 < interval) (prior : List CapturedFrame)
    (herr : (captureLoop d stop e interval hI start 0 "" [] []).errored = true) :
    (startAutoCapture d stop start e interval hI prior).store = prior
    ∧ (startAutoCapture d stop start e interval hI prior).finalPos = start
    ∧ (startAutoCapture d stop start e interval hI prior).capturing = false
    ∧ (startAutoCapture d stop start e interval hI prior).raised = false := by
  refine ⟨?_, rfl, rfl, rfl⟩
  simp only [startAutoCapture, herr]
  rfl

/-- Witness for the amended C5: the throwing decoder over `[0, 1]` with a
non-empty prior store. -/
theorem c5_error_skips_merge_witness :
    (startAutoCapture exD5 neverStop 0 1 1 one_pos [exFrameGood]).store = [exFrameGood]
    ∧ (startAutoCapture exD5 neverStop 0 1 1 one_pos [exFrameGood]).finalPos = 0
    ∧ (startAutoCapture exD5 neverStop 0 1 1 one_pos [exFrameGood]).capturing = false
    ∧ (startAutoCapture exD5 neverStop 0 1 1 one_pos [exFrameGood]).raised = false :=
  c5_error_skips_merge exD5 neverStop 0 1 1 one_pos [exFrameGood]
    (by rw [captureLoop_eq_linearLoop, pointsList_unit]; decide)

/-- C6 (code bug evaluation): exporting the two frames `g` (decodes and
encodes fine) and `bad` (its data URL never fires `load`) leaves the
`Promise.all` in `downloadZip` pending forever — no archive is ever
produced and the whole export stalls — whereas exporting `g` alone
completes with its single entry.  A single bad frame therefore does stall
the whole export, contradicting the claim. -/
theorem c6_decode_failure_stalls_export :
    downloadZip exEnv6 [exFrameGood, exFrameBad] exSettings = PromiseOut.pending
    ∧ downloadZip exEnv6 [exFrameGood] exSettings
        = PromiseOut.settled ([("image_01.jpeg", "enc:g")], "image_frames.zip") := by
  constructor
  · decide
  · decide

/-- Every component of an `enum` entry is an element of the list. -/
theorem mem_of_mem_enum {α : Type} {l : List α} {pair : ℕ × α} (hp : pair ∈ l.enum) :
    pair.2 ∈ l := by
  have h : pair.2 ∈ List.map Prod.snd l.enum := List.mem_map_of_mem Prod.snd hp
  rwa [List.enum, List.enumFrom_map_snd] at h

/-- When every frame's transform resolves null, `downloadZip` still
settles and delivers an archive with zero entries. -/
theorem downloadZip_all_null (env : ExportEnv) (frames : List CapturedFrame)
    (s : ExportSettings)
    (hall : ∀ f ∈ frames, processFrame env f s = PromiseOut.settled none) :
    downloadZip env frames s
      = PromiseOut.settled ([], s.filenamePrefix ++ "_frames.zip") := by
  have hsorted : ∀ f ∈ frames.insertionSort (sortLE s),
      processFrame env f s = PromiseOut.settled none :=
    fun f hf => hall f ((List.mem_insertionSort _).mp hf)
  rw [downloadZip]
  have hany : ((frames.insertionSort (sortLE s)).enum.map
      (fun p => (p.1, p.2, processFrame env p.2 s))).any
        (fun r => decide (r.2.2 = PromiseOut.pending)) = false := by
    rw [List.any_eq_false]
    intro r hr
    obtain ⟨pair, hpair, rfl⟩ := List.mem_map.mp hr
    have hmem : pair.2 ∈ frames.insertionSort (sortLE s) := mem_of_mem_enum hpair
    simp [hsorted pair.2 hmem]
  rw [if_neg (by simp [hany])]
  have hfm : ((frames.insertionSort (sortLE s)).enum.map
      (fun p => (p.1, p.2, processFrame env p.2 s))).filterMap
        (fun r =>
          match r.2.2 with
          | PromiseOut.settled (some blob) =>
            some (generateFilename r.2.1.timestamp s r.1, blob)
          | _ => none) = [] := by
    rw [List.filterMap_eq_nil_iff]
    intro r hr
    obtain ⟨pair, hpair, rfl⟩ := List.mem_map.mp hr
    have hmem : pair.2 ∈ frames.insertionSort (sortLE s) := mem_of_mem_enum hpair
    simp [hsorted pair.2 hmem]
  rw [hfm]

/-- C7 (counterexample): a one-frame store whose only frame decodes but
whose encode yields a null blob produces zero successful transforms, yet
the export completes normally and delivers an archive with zero image
entries — no error is surfaced and an empty bundle is delivered. -/
theorem c7_counterexample :
    handleDownloadAll exEnv7 [exFrameGood] exSettings
      = ExportOutcome.delivered [] "image_frames.zip" := by
  rw [handleDownloadAll, if_neg (by decide),
    downloadZip_all_null exEnv7 [exFrameGood] exSettings (by decide)]
  decide

/-- C7 (amended): an export from an empty Frame Store returns silently
(no archive, and no error either); an export in which zero frames
transform successfully still produces and delivers the archive
`{prefix}_frames.zip` containing zero image entries, indistinguishable
from a successful export. -/
theorem c7_empty_bundle_delivered :
    (∀ (env : ExportEnv) (s : ExportSettings),
      handleDownloadAll env [] s = ExportOutcome.noop)
    ∧ (∀ (env : ExportEnv) (frames : List CapturedFrame) (s : ExportSettings),
        frames ≠ [] →
        (∀ f ∈ frames, processFrame env f s = PromiseOut.settled none) →
        handleDownloadAll env frames s
          = ExportOutcome.delivered [] (s.filenamePrefix ++ "_frames.zip")) := by
  constructor
  · intro env s
    rfl
  · intro env frames s hne hall
    rw [handleDownloadAll, if_neg (by simp [hne]), downloadZip_all_null env frames s hall]

/-- Witness for the amended C7: the empty store, and the all-null-encode
environment over a one-frame store. -/
theorem c7_empty_bundle_delivered_witness :
    handleDownloadAll exEnv7 [] exSettings = ExportOutcome.noop
    ∧ handleDownloadAll exEnv7 [exFrameGood] exSettings
        = ExportOutcome.delivered [] ("image" ++ "_frames.zip") :=
  ⟨c7_empty_bundle_delivered.1 exEnv7 exSettings,
   c7_empty_bundle_delivered.2 exEnv7 [exFrameGood] exSettings (by simp) (by decide)⟩
